import Mathlib

/-!
Shallow embedding of `src/src-tauri/src/main.rs` of the layout-uploader
repository, together with proofs about the tile-pyramid upload pipeline
(`TileProcessor`).

Modelling conventions:
* `u32` arithmetic is modelled over `Nat` (exact, non-wrapping) semantics.
* The two `f64` computations (`get_max_zoom_levels`, the per-level scale
  factor) are modelled by the exact integer ceiling division / ceiling
  logarithm and exact rational floor they compute: for `u32`-sized inputs
  with a positive tile size, `f64` rounding cannot change the truncated
  results by more than the slack absorbed by the padding step, and the
  ceiling/log chain is exact (relative `f64` error is far below the gap
  between an integer input and the nearest power of two or integer).
* Effects (the cancel-flag reads, progress-snapshot writes, tile uploads
  and the finalize HTTP call) are recorded in an explicit trace; their
  outcomes are supplied by an `Env` oracle indexed by occurrence number,
  which captures every possible interleaving with the external canceller
  and every possible sequence of HTTP outcomes.
* Pixel contents (Lanczos resampling, `overlay`, `crop_imm`, JPEG bytes)
  are not modelled: no claim below concerns pixel values, only the
  geometry, ordering, URLs, progress numbers and control flow.  JPEG
  encoding of an in-memory buffer is modelled as always succeeding.
-/

/-- Fuel-driven ceiling base-2 logarithm: `ceilLog2Aux fuel n` computes the
least `L` with `n ≤ 2 ^ L` (as `Nat.clog 2`) whenever `n ≤ fuel`, by the same
recursion `n ↦ ⌈n / 2⌉` that `Nat.clog` uses, but structurally on the fuel so
that it evaluates by kernel reduction. -/
def ceilLog2Aux : Nat → Nat → Nat
  | 0, _ => 0
  | fuel + 1, n => if n ≤ 1 then 0 else ceilLog2Aux fuel ((n + 1) / 2) + 1

/-- Ceiling base-2 logarithm (agrees with `Nat.clog 2`, proved below). -/
def ceilLog2 (n : Nat) : Nat := ceilLog2Aux n n

/-- Embeds `TileProcessor::get_max_zoom_levels` (main.rs lines 50-54).  The
Rust computes `(max_dimension as f64 / tile_size as f64).ceil()` followed by
`.log2().ceil() as u32 + 1`; for `u32` inputs with `tile_size > 0` both `f64`
steps are exact (see the module comment), modelled here as the exact ceiling
division and ceiling logarithm over `Nat`. -/
def get_max_zoom_levels (tile_size width height : Nat) : Nat :=
  let max_dimension := max width height
  let tiles := (max_dimension + tile_size - 1) / tile_size
  ceilLog2 tiles + 1

/-- Embeds the `total_tiles` accumulation loop of `process_tiles`
(main.rs lines 74-77): `for i in 0..zoom_levels { total_tiles += 4u32.pow(i) }`. -/
def totalTiles (zoom_levels : Nat) : Nat :=
  (List.range zoom_levels).foldl (fun acc i => acc + 4 ^ i) 0

/-- Per-level geometry computed by `process_tiles` (main.rs lines 97-141). -/
structure LevelLayout where
  new_width : Nat
  new_height : Nat
  padded_width : Nat
  padded_height : Nat
  tiles_x : Nat
  tiles_y : Nat
deriving DecidableEq

/-- Embeds the per-level geometry of `process_tiles` (main.rs lines 97-141):
`scale_factor = calc_zoom(zoom_level, w, h) = (2^zoom_level * tile_size) as f64
/ max_dimension as f64` (lines 44-48); `new_width = (w as f64 * scale_factor)
as u32` (and likewise for the height) modelled as the exact rational floor
`w * (2^zoom_level * tile_size) / max_dimension`; `saturating_sub` is `Nat`
subtraction; `tiles_x`/`tiles_y` are the integer divisions on lines 140-141. -/
def levelLayout (tile_size width height zoom_level : Nat) : LevelLayout :=
  let ts := 2 ^ zoom_level * tile_size
  let max_dimension := max width height
  let new_width := width * ts / max_dimension
  let new_height := height * ts / max_dimension
  let tile_count := 2 ^ zoom_level
  let total_width := tile_count * tile_size
  let extra_width := total_width - new_width
  let extra_height := total_width - new_height
  let padded_width := new_width + extra_width
  let padded_height := new_height + extra_height
  { new_width := new_width, new_height := new_height,
    padded_width := padded_width, padded_height := padded_height,
    tiles_x := padded_width / tile_size, tiles_y := padded_height / tile_size }

/-- The `(tile_x, tile_y)` iteration order of the nested tile loops
(main.rs lines 143-144): `tile_x` outer, `tile_y` inner. -/
def tilePairs (tiles_x tiles_y : Nat) : List (Nat × Nat) :=
  (List.range tiles_x).flatMap (fun tx => (List.range tiles_y).map (fun ty => (tx, ty)))

/-- Embeds `config.server_address.trim_end_matches('/')` (main.rs line 178):
all trailing `/` characters are removed. -/
def trimEndSlashes (s : String) : String :=
  String.mk ((s.data.reverse.dropWhile (fun c => c = '/')).reverse)

/-- The run configuration (main.rs lines 13-21); `image_path` is replaced by
the decoded image dimensions passed to `process_tiles` directly, since every
claim below concerns the pipeline after a successful decode. -/
structure ProcessConfig where
  server_address : String
  layout_key : String
  secret : String
  background_color : Nat × Nat × Nat
  tile_size : Nat
deriving DecidableEq

/-- Embeds the `format!` that builds the tile upload URL (main.rs lines
176-185). -/
def tileUploadUrl (cfg : ProcessConfig) (layout_path : String) (zoom_level x y : Nat) : String :=
  trimEndSlashes cfg.server_address ++ "/LayoutUtil/UploadTile/" ++ cfg.layout_key ++ "/" ++
    layout_path ++ "/" ++ toString zoom_level ++ "/" ++ toString x ++ "/" ++ toString y ++
    "?__sc__=" ++ cfg.secret

/-- The progress snapshot record (main.rs lines 23-30). -/
structure ProgressUpdate where
  current : Nat
  total : Nat
  zoom_level : Nat
  percentage : Nat
  status : String
deriving DecidableEq

/-- The all-zero "Cancelled" snapshot written at every cancellation
checkpoint (main.rs lines 86-92, 146-152, 213-219). -/
def cancelledUpdate : ProgressUpdate :=
  { current := 0, total := 0, zoom_level := 0, percentage := 0, status := "Cancelled" }

/-- The all-zero "Cancelling..." snapshot written by `cancel_processing`
(main.rs lines 353-359). -/
def cancellingUpdate : ProgressUpdate :=
  { current := 0, total := 0, zoom_level := 0, percentage := 0, status := "Cancelling..." }

/-- Embeds the per-tile status `format!` (main.rs lines 200-203). -/
def statusMsg (zoom_level current total : Nat) : String :=
  "Processing zoom level " ++ toString zoom_level ++ " (" ++ toString current ++ "/" ++
    toString total ++ ")"

/-- One observable effect of a run, in program order: a read of the shared
cancel flag (with the value observed), a write of the shared progress
snapshot, a tile-upload HTTP POST (with its URL and whether it succeeded),
or the finalize HTTP GET (with the `MaxZoom` value sent). -/
inductive Event where
  | cancelRead (value : Bool)
  | progressWrite (p : ProgressUpdate)
  | uploadTile (zoom x y : Nat) (url : String) (ok : Bool)
  | finalizeCall (maxZoom : Nat)
deriving DecidableEq

/-- Oracle for one run: `cancel n` is the value of the shared cancel flag at
its `n`-th read inside `process_tiles` (capturing every interleaving with an
external canceller), `uploadOk n` / `uploadErrMsg n` give the outcome of the
`n`-th tile upload, `finalizeOk` / `finalizeErrMsg` the outcome of the
finalize call, and `layout_path` the `Uuid::new_v4()` string of line 79. -/
structure Env where
  cancel : Nat → Bool
  uploadOk : Nat → Bool
  uploadErrMsg : Nat → String
  finalizeOk : Bool
  finalizeErrMsg : String
  layout_path : String

/-- The mutable locals of `process_tiles`: how many cancel-flag reads and
upload calls have happened, plus `current_tile` and `max_zoom`
(main.rs lines 80-81). -/
structure Counters where
  cancelReads : Nat
  uploads : Nat
  current_tile : Nat
  max_zoom : Nat
deriving DecidableEq

/-- Embeds the body of the inner tile loop (main.rs lines 145-206): cancel
check (lines 145-154), pixel offsets `x = tile_x * tile_size`,
`y = tile_y * tile_size` (lines 156-157), crop + JPEG encode (pixel content
not modelled, encoding modelled as succeeding), upload (lines 176-189), then
`current_tile += 1` and the progress write (lines 191-206). -/
def processTileStep (cfg : ProcessConfig) (env : Env) (total_tiles zoom_level : Nat) (p : Nat × Nat) (c : Counters) : List Event × Counters × Option String :=
  let v := env.cancel c.cancelReads
  let c1 : Counters := { c with cancelReads := c.cancelReads + 1 }
  if v then
    ([Event.cancelRead true, Event.progressWrite cancelledUpdate], c1, some "Processing cancelled")
  else
    let x := p.1 * cfg.tile_size
    let y := p.2 * cfg.tile_size
    let url := tileUploadUrl cfg env.layout_path zoom_level x y
    let k := c1.uploads
    let c2 : Counters := { c1 with uploads := k + 1 }
    if env.uploadOk k then
      let c3 : Counters := { c2 with current_tile := c2.current_tile + 1 }
      let percentage := c3.current_tile * 100 / total_tiles
      let snap : ProgressUpdate :=
        { current := c3.current_tile, total := total_tiles, zoom_level := zoom_level,
          percentage := percentage, status := statusMsg zoom_level c3.current_tile total_tiles }
      ([Event.cancelRead false, Event.uploadTile zoom_level x y url true,
        Event.progressWrite snap], c3, none)
    else
      ([Event.cancelRead false, Event.uploadTile zoom_level x y url false], c2,
        some ("Upload failed: " ++ env.uploadErrMsg k))

/-- The inner tile loop (main.rs lines 143-208) over an explicit list of
`(tile_x, tile_y)` pairs, short-circuiting on the first error as `?` does. -/
def runTiles (cfg : ProcessConfig) (env : Env) (total_tiles zoom_level : Nat) : List (Nat × Nat) → Counters → List Event × Counters × Option String
  | [], c => ([], c, none)
  | p :: rest, c =>
    match processTileStep cfg env total_tiles zoom_level p c with
    | (evs, c1, some e) => (evs, c1, some e)
    | (evs, c1, none) =>
      match runTiles cfg env total_tiles zoom_level rest c1 with
      | (evs2, c2, r) => (evs ++ evs2, c2, r)

/-- Embeds one iteration of the zoom-level loop (main.rs lines 84-209):
cancel check (lines 85-94), `max_zoom = max_zoom.max(zoom_level)` (line 96),
resample + pad (modelled by `levelLayout`), then the tile loops. -/
def processLevel (cfg : ProcessConfig) (env : Env) (width height total_tiles zoom_level : Nat) (c : Counters) : List Event × Counters × Option String :=
  let v := env.cancel c.cancelReads
  let c1 : Counters := { c with cancelReads := c.cancelReads + 1 }
  if v then
    ([Event.cancelRead true, Event.progressWrite cancelledUpdate], c1, some "Processing cancelled")
  else
    let c2 : Counters := { c1 with max_zoom := max c1.max_zoom zoom_level }
    let layout := levelLayout cfg.tile_size width height zoom_level
    match runTiles cfg env total_tiles zoom_level (tilePairs layout.tiles_x layout.tiles_y) c2 with
    | (evs, c3, r) => (Event.cancelRead false :: evs, c3, r)

/-- The zoom-level loop (main.rs line 84) over an explicit list of levels,
short-circuiting on the first error. -/
def runLevels (cfg : ProcessConfig) (env : Env) (width height total_tiles : Nat) : List Nat → Counters → List Event × Counters × Option String
  | [], c => ([], c, none)
  | z :: rest, c =>
    match processLevel cfg env width height total_tiles z c with
    | (evs, c1, some e) => (evs, c1, some e)
    | (evs, c1, none) =>
      match runLevels cfg env width height total_tiles rest c1 with
      | (evs2, c2, r) => (evs ++ evs2, c2, r)

/-- Embeds `TileProcessor::process_tiles` (main.rs lines 56-235) after a
successful decode of a `width`x`height` image: computes `zoom_levels` and
`total_tiles`, runs the level loop over `(0..zoom_levels).rev()`, performs
the final cancellation check (lines 211-221), then the finalize call
(lines 224-234).  Returns the trace of effects and the `Result`. -/
def process_tiles (cfg : ProcessConfig) (env : Env) (width height : Nat) : List Event × Except String Nat :=
  let zoom_levels := get_max_zoom_levels cfg.tile_size width height
  let total_tiles := totalTiles zoom_levels
  let c0 : Counters := { cancelReads := 0, uploads := 0, current_tile := 0, max_zoom := 0 }
  match runLevels cfg env width height total_tiles ((List.range zoom_levels).reverse) c0 with
  | (evs, _, some e) => (evs, Except.error e)
  | (evs, c, none) =>
    if env.cancel c.cancelReads then
      (evs ++ [Event.cancelRead true, Event.progressWrite cancelledUpdate],
        Except.error "Processing cancelled")
    else
      let evs2 := evs ++ [Event.cancelRead false, Event.finalizeCall c.max_zoom]
      if env.finalizeOk then (evs2, Except.ok c.max_zoom)
      else (evs2, Except.error ("Failed to finalize upload: " ++ env.finalizeErrMsg))

/-- Embeds the `start_processing` Tauri command (main.rs lines 306-338): it
resets the cancel flag, writes a "Starting..." snapshot, builds the
`TileProcessor` from the raw config — performing no validation of
`tile_size` — and runs `process_tiles`. -/
def start_processing (cfg : ProcessConfig) (env : Env) (width height : Nat) : List Event × Except String String :=
  let startingUpdate : ProgressUpdate :=
    { current := 0, total := 0, zoom_level := 0, percentage := 0, status := "Starting..." }
  match process_tiles cfg env width height with
  | (evs, Except.ok mz) =>
    (Event.progressWrite startingUpdate :: evs,
      Except.ok ("Processing completed successfully! Max zoom level: " ++ toString mz))
  | (evs, Except.error e) => (Event.progressWrite startingUpdate :: evs, Except.error e)

/-- The zoom levels of the tile-upload events of a trace, in order. -/
def upZooms (tr : List Event) : List Nat :=
  tr.filterMap (fun e => match e with | Event.uploadTile z _ _ _ _ => some z | _ => none)

/-- The number of tile-upload events of a trace. -/
def uploadCount (tr : List Event) : Nat := (upZooms tr).length

example : get_max_zoom_levels 256 512 512 = 2 := by decide
example : totalTiles 2 = 5 := by decide
example : totalTiles 3 = 21 := by decide
example : (levelLayout 256 512 512 1).padded_width = 512 := by decide
example : tilePairs 2 2 = [(0,0),(0,1),(1,0),(1,1)] := by decide
example : trimEndSlashes "http://s//" = "http://s" := by rfl

/-! ### Arithmetic facts about the zoom-level calculator and the padder -/

/-- The fuel-driven ceiling log agrees with `Nat.clog 2` when the fuel
dominates the argument. -/
theorem ceilLog2Aux_eq_clog : ∀ fuel n, n ≤ fuel → ceilLog2Aux fuel n = Nat.clog 2 n := by
  intro fuel
  induction fuel with
  | zero =>
    intro n hn
    have hn0 : n = 0 := Nat.le_zero.mp hn
    subst hn0
    simp [ceilLog2Aux, Nat.clog_of_right_le_one]
  | succ k ih =>
    intro n hn
    by_cases h1 : n ≤ 1
    · simp [ceilLog2Aux, h1, Nat.clog_of_right_le_one h1]
    · have h2 : 2 ≤ n := by omega
      have hrec : (n + 1) / 2 ≤ k := by omega
      have hclog := Nat.clog_of_two_le (b := 2) (by norm_num) h2
      have hstep : (n + 2 - 1) / 2 = (n + 1) / 2 := by omega
      rw [hstep] at hclog
      simp only [ceilLog2Aux, if_neg h1]
      rw [ih _ hrec, hclog]

/-- The function `ceilLog2` computes `Nat.clog 2`. -/
theorem ceilLog2_eq_clog (n : Nat) : ceilLog2 n = Nat.clog 2 n :=
  ceilLog2Aux_eq_clog n n (Nat.le_refl n)

/-- Characterization of the integer ceiling division used by
`get_max_zoom_levels`. -/
theorem ceil_div_le_iff (m t c : Nat) (ht : 1 ≤ t) :
    (m + t - 1) / t ≤ c ↔ m ≤ c * t := by
  have h1 : c + 1 ≤ (m + t - 1) / t ↔ (c + 1) * t ≤ m + t - 1 :=
    Nat.le_div_iff_mul_le (by omega)
  have h2 : (c + 1) * t = c * t + t := by ring
  rw [h2] at h1
  generalize (m + t - 1) / t = q at h1 ⊢
  generalize c * t = a at h1 ⊢
  omega

/-- C1: for `w, h, t ≥ 1` the zoom-level calculator returns a positive level
count `ceil(log2(ceil(max(w,h)/t))) + 1`, and `levelCount - 1` is the least
`L` with `2^L * t ≥ max(w,h)`; in particular a 1x1 image yields at least one
level. -/
theorem claimC1_get_max_zoom_levels_least (width height tile_size : Nat)
    (hw : 1 ≤ width) (hh : 1 ≤ height) (ht : 1 ≤ tile_size) :
    1 ≤ get_max_zoom_levels tile_size width height ∧
    max width height ≤ 2 ^ (get_max_zoom_levels tile_size width height - 1) * tile_size ∧
    ∀ L, max width height ≤ 2 ^ L * tile_size →
      get_max_zoom_levels tile_size width height - 1 ≤ L := by
  have hb : (1 : Nat) < 2 := by norm_num
  simp only [get_max_zoom_levels, ceilLog2_eq_clog]
  set m := max width height with hm
  set tiles := (m + tile_size - 1) / tile_size with htiles
  refine ⟨by omega, ?_, ?_⟩
  · have h1 : tiles ≤ 2 ^ Nat.clog 2 tiles := Nat.le_pow_clog hb tiles
    have h2 : m ≤ 2 ^ Nat.clog 2 tiles * tile_size :=
      (ceil_div_le_iff m tile_size _ ht).mp h1
    simpa using h2
  · intro L hL
    have h1 : tiles ≤ 2 ^ L := (ceil_div_le_iff m tile_size _ ht).mpr hL
    have h2 : Nat.clog 2 tiles ≤ L := (Nat.le_pow_iff_clog_le hb).mp h1
    simpa using h2

/-- Witness for C1 at the spec's 512x512 image with tile size 256. -/
theorem claimC1_witness :
    1 ≤ get_max_zoom_levels 256 512 512 ∧
    max 512 512 ≤ 2 ^ (get_max_zoom_levels 256 512 512 - 1) * 256 ∧
    ∀ L, max 512 512 ≤ 2 ^ L * 256 → get_max_zoom_levels 256 512 512 - 1 ≤ L :=
  claimC1_get_max_zoom_levels_least 512 512 256 (by decide) (by decide) (by decide)

/-- The `total_tiles` loop computes the closed-form quad-tree sum. -/
theorem totalTiles_eq_sum (n : Nat) : totalTiles n = ∑ i ∈ Finset.range n, 4 ^ i := by
  induction n with
  | zero => rfl
  | succ k ih =>
    have hfold : totalTiles (k + 1) = totalTiles k + 4 ^ k := by
      simp [totalTiles, List.range_succ]
    rw [hfold, ih, Finset.sum_range_succ]

/-- C7: for every `levelCount ≥ 1` the progress denominator computed by the
`total_tiles` loop equals `Σ_{i=0}^{levelCount-1} 4^i`. -/
theorem claimC7_totalTiles_closed_form (levelCount : Nat) (h : 1 ≤ levelCount) :
    totalTiles levelCount = ∑ i ∈ Finset.range levelCount, 4 ^ i :=
  totalTiles_eq_sum levelCount

/-- Witness for C7 at the spec's example `levelCount = 3`, where the sum is
`1 + 4 + 16 = 21`. -/
theorem claimC7_witness :
    totalTiles 3 = 21 ∧ totalTiles 3 = ∑ i ∈ Finset.range 3, 4 ^ i :=
  ⟨by decide, claimC7_totalTiles_closed_form 3 (by decide)⟩

/-- Membership in the tile grid iteration. -/
theorem mem_tilePairs {a b : Nat} {p : Nat × Nat} :
    p ∈ tilePairs a b ↔ p.1 < a ∧ p.2 < b := by
  obtain ⟨tx, ty⟩ := p
  simp [tilePairs, List.mem_flatMap, List.mem_map, List.mem_range]

/-- Length of the tile grid iteration. -/
theorem tilePairs_length (a b : Nat) : (tilePairs a b).length = a * b := by
  induction a with
  | zero => simp [tilePairs]
  | succ k ih =>
    have h1 : tilePairs (k + 1) b =
        tilePairs k b ++ (List.range b).map (fun ty => (k, ty)) := by
      simp [tilePairs, List.range_succ]
    rw [h1, List.length_append, ih, List.length_map, List.length_range]
    ring

/-- C3: for `w, h, t ≥ 1` and every zoom level, the padded canvas computed by
the padder is an exact multiple of the tile size on both axes; both padded
dimensions equal `2^level * t`, so the level is sliced into exactly
`2^level * 2^level` tiles, each crop being a full `t x t` block inside the
canvas. -/
theorem claimC3_padding_exact (width height tile_size zoom_level : Nat)
    (hw : 1 ≤ width) (hh : 1 ≤ height) (ht : 1 ≤ tile_size) :
    (levelLayout tile_size width height zoom_level).padded_width % tile_size = 0 ∧
    (levelLayout tile_size width height zoom_level).padded_height % tile_size = 0 ∧
    (levelLayout tile_size width height zoom_level).padded_width = 2 ^ zoom_level * tile_size ∧
    (levelLayout tile_size width height zoom_level).padded_height = 2 ^ zoom_level * tile_size ∧
    (levelLayout tile_size width height zoom_level).tiles_x = 2 ^ zoom_level ∧
    (levelLayout tile_size width height zoom_level).tiles_y = 2 ^ zoom_level ∧
    (tilePairs (levelLayout tile_size width height zoom_level).tiles_x
      (levelLayout tile_size width height zoom_level).tiles_y).length = 4 ^ zoom_level ∧
    ∀ p ∈ tilePairs (levelLayout tile_size width height zoom_level).tiles_x
        (levelLayout tile_size width height zoom_level).tiles_y,
      p.1 * tile_size + tile_size ≤
        (levelLayout tile_size width height zoom_level).padded_width ∧
      p.2 * tile_size + tile_size ≤
        (levelLayout tile_size width height zoom_level).padded_height := by
  have hmd : 0 < max width height := by omega
  have hwle : width * (2 ^ zoom_level * tile_size) / max width height ≤
      2 ^ zoom_level * tile_size := by
    calc width * (2 ^ zoom_level * tile_size) / max width height
        ≤ max width height * (2 ^ zoom_level * tile_size) / max width height :=
          Nat.div_le_div_right (Nat.mul_le_mul_right _ (le_max_left _ _))
      _ = 2 ^ zoom_level * tile_size := Nat.mul_div_cancel_left _ hmd
  have hhle : height * (2 ^ zoom_level * tile_size) / max width height ≤
      2 ^ zoom_level * tile_size := by
    calc height * (2 ^ zoom_level * tile_size) / max width height
        ≤ max width height * (2 ^ zoom_level * tile_size) / max width height :=
          Nat.div_le_div_right (Nat.mul_le_mul_right _ (le_max_right _ _))
      _ = 2 ^ zoom_level * tile_size := Nat.mul_div_cancel_left _ hmd
  have hpw : (levelLayout tile_size width height zoom_level).padded_width =
      2 ^ zoom_level * tile_size := by
    simp only [levelLayout]
    omega
  have hph : (levelLayout tile_size width height zoom_level).padded_height =
      2 ^ zoom_level * tile_size := by
    simp only [levelLayout]
    omega
  have htx : (levelLayout tile_size width height zoom_level).tiles_x = 2 ^ zoom_level := by
    have : (levelLayout tile_size width height zoom_level).tiles_x =
        (levelLayout tile_size width height zoom_level).padded_width / tile_size := by
      simp only [levelLayout]
    rw [this, hpw, Nat.mul_div_cancel _ (by omega)]
  have hty : (levelLayout tile_size width height zoom_level).tiles_y = 2 ^ zoom_level := by
    have : (levelLayout tile_size width height zoom_level).tiles_y =
        (levelLayout tile_size width height zoom_level).padded_height / tile_size := by
      simp only [levelLayout]
    rw [this, hph, Nat.mul_div_cancel _ (by omega)]
  refine ⟨by rw [hpw]; exact Nat.mul_mod_left _ _, by rw [hph]; exact Nat.mul_mod_left _ _,
    hpw, hph, htx, hty, ?_, ?_⟩
  · rw [htx, hty, tilePairs_length]
    rw [show (4 : Nat) = 2 * 2 by norm_num, Nat.mul_pow]
  · intro p hp
    rw [htx, hty] at hp
    obtain ⟨h1, h2⟩ := mem_tilePairs.mp hp
    constructor
    · rw [hpw]
      calc p.1 * tile_size + tile_size = (p.1 + 1) * tile_size := by ring
        _ ≤ 2 ^ zoom_level * tile_size := Nat.mul_le_mul_right _ (by omega)
    · rw [hph]
      calc p.2 * tile_size + tile_size = (p.2 + 1) * tile_size := by ring
        _ ≤ 2 ^ zoom_level * tile_size := Nat.mul_le_mul_right _ (by omega)

/-- Witness for C3 at a non-square image (`w = 512`, `h = 300`, `t = 256`)
and level 1. -/
theorem claimC3_witness :
    (levelLayout 256 512 300 1).padded_width % 256 = 0 ∧
    (levelLayout 256 512 300 1).padded_height % 256 = 0 ∧
    (levelLayout 256 512 300 1).padded_width = 2 ^ 1 * 256 ∧
    (levelLayout 256 512 300 1).padded_height = 2 ^ 1 * 256 ∧
    (levelLayout 256 512 300 1).tiles_x = 2 ^ 1 ∧
    (levelLayout 256 512 300 1).tiles_y = 2 ^ 1 ∧
    (tilePairs (levelLayout 256 512 300 1).tiles_x
      (levelLayout 256 512 300 1).tiles_y).length = 4 ^ 1 ∧
    ∀ p ∈ tilePairs (levelLayout 256 512 300 1).tiles_x
        (levelLayout 256 512 300 1).tiles_y,
      p.1 * 256 + 256 ≤ (levelLayout 256 512 300 1).padded_width ∧
      p.2 * 256 + 256 ≤ (levelLayout 256 512 300 1).padded_height :=
  claimC3_padding_exact 512 300 256 1 (by decide) (by decide) (by decide)

/-! ### Structure of the effect traces -/

/-- Events an uncancelled, so-far-successful portion of a run emits: cancel
reads observing `false`, successful uploads, and progress writes that carry
the fixed `total` denominator (never the "Cancelled" snapshot, never a
finalize call). -/
def cleanEv (tot : Nat) : Event → Prop
  | Event.cancelRead v => v = false
  | Event.progressWrite p => p.total = tot
  | Event.uploadTile _ _ _ _ ok => ok = true
  | Event.finalizeCall _ => False

/-- Every upload event of a trace targets the URL built from the tile's
absolute pixel offsets `tile_x * tile_size`, `tile_y * tile_size`. -/
def uploadsWellFormed (cfg : ProcessConfig) (lp : String) (tr : List Event) : Prop :=
  ∀ z x y url ok, Event.uploadTile z x y url ok ∈ tr →
    ∃ tx ty, x = tx * cfg.tile_size ∧ y = ty * cfg.tile_size ∧
      url = tileUploadUrl cfg lp z x y

/-- The number of tiles the slicer produces for one level. -/
def levelTileCount (tile_size width height z : Nat) : Nat :=
  (levelLayout tile_size width height z).tiles_x * (levelLayout tile_size width height z).tiles_y

/-- The three possible outcomes of one tile iteration, with the exact events,
counter updates and error value of each. -/
theorem processTileStep_cases (cfg : ProcessConfig) (env : Env) (tot z : Nat)
    (p : Nat × Nat) (c : Counters) :
    (env.cancel c.cancelReads = true ∧
      processTileStep cfg env tot z p c =
        ([Event.cancelRead true, Event.progressWrite cancelledUpdate],
          { cancelReads := c.cancelReads + 1, uploads := c.uploads,
            current_tile := c.current_tile, max_zoom := c.max_zoom },
          some "Processing cancelled")) ∨
    (env.cancel c.cancelReads = false ∧ env.uploadOk c.uploads = true ∧
      processTileStep cfg env tot z p c =
        ([Event.cancelRead false,
          Event.uploadTile z (p.1 * cfg.tile_size) (p.2 * cfg.tile_size)
            (tileUploadUrl cfg env.layout_path z (p.1 * cfg.tile_size) (p.2 * cfg.tile_size))
            true,
          Event.progressWrite
            { current := c.current_tile + 1, total := tot, zoom_level := z,
              percentage := (c.current_tile + 1) * 100 / tot,
              status := statusMsg z (c.current_tile + 1) tot }],
          { cancelReads := c.cancelReads + 1, uploads := c.uploads + 1,
            current_tile := c.current_tile + 1, max_zoom := c.max_zoom },
          none)) ∨
    (env.cancel c.cancelReads = false ∧ env.uploadOk c.uploads = false ∧
      processTileStep cfg env tot z p c =
        ([Event.cancelRead false,
          Event.uploadTile z (p.1 * cfg.tile_size) (p.2 * cfg.tile_size)
            (tileUploadUrl cfg env.layout_path z (p.1 * cfg.tile_size) (p.2 * cfg.tile_size))
            false],
          { cancelReads := c.cancelReads + 1, uploads := c.uploads + 1,
            current_tile := c.current_tile, max_zoom := c.max_zoom },
          some ("Upload failed: " ++ env.uploadErrMsg c.uploads))) := by
  by_cases hc : env.cancel c.cancelReads
  · left
    refine ⟨hc, ?_⟩
    simp [processTileStep, hc]
  · by_cases hu : env.uploadOk c.uploads
    · right; left
      refine ⟨by simpa using hc, hu, ?_⟩
      simp [processTileStep, hc, hu]
    · right; right
      refine ⟨by simpa using hc, by simpa using hu, ?_⟩
      simp [processTileStep, hc, hu]

/-- The projection `upZooms` distributes over append. -/
theorem upZooms_append (a b : List Event) : upZooms (a ++ b) = upZooms a ++ upZooms b := by
  simp [upZooms]

/-- Characterization of a tile loop that ran to completion: every event is
clean, one upload per grid cell at this zoom level, and the counters advance
by the number of cells. -/
theorem runTiles_none (cfg : ProcessConfig) (env : Env) (tot z : Nat) :
    ∀ (l : List (Nat × Nat)) (c : Counters) (evs : List Event) (c' : Counters),
    runTiles cfg env tot z l c = (evs, c', none) →
    (∀ e ∈ evs, cleanEv tot e) ∧
    upZooms evs = List.replicate l.length z ∧
    c'.cancelReads = c.cancelReads + l.length ∧
    c'.uploads = c.uploads + l.length ∧
    c'.current_tile = c.current_tile + l.length ∧
    c'.max_zoom = c.max_zoom := by
  intro l
  induction l with
  | nil =>
    intro c evs c' h
    simp only [runTiles, Prod.mk.injEq] at h
    obtain ⟨rfl, rfl, -⟩ := h
    simp [upZooms]
  | cons p rest ih =>
    intro c evs c' h
    rcases processTileStep_cases cfg env tot z p c with ⟨hc, hstep⟩ | ⟨hc, hu, hstep⟩ |
      ⟨hc, hu, hstep⟩
    · rw [runTiles, hstep] at h
      simp at h
    · rw [runTiles, hstep] at h
      dsimp only at h
      rcases hrt : runTiles cfg env tot z rest
          { cancelReads := c.cancelReads + 1, uploads := c.uploads + 1,
            current_tile := c.current_tile + 1, max_zoom := c.max_zoom } with ⟨evs2, c2, r⟩
      rw [hrt] at h
      dsimp only at h
      simp only [Prod.mk.injEq] at h
      obtain ⟨rfl, rfl, rfl⟩ := h
      obtain ⟨hclean, hzooms, h1, h2, h3, h4⟩ := ih _ _ _ hrt
      refine ⟨?_, ?_, by simp at h1 ⊢; omega, by simp at h2 ⊢; omega,
        by simp at h3 ⊢; omega, by simpa using h4⟩
      · intro e he
        rcases List.mem_append.mp he with he | he
        · simp only [List.mem_cons, List.not_mem_nil, or_false] at he
          rcases he with rfl | rfl | rfl
          · exact rfl
          · exact rfl
          · exact rfl
        · exact hclean e he
      · rw [upZooms_append, hzooms]
        simp [upZooms, List.replicate_succ]
    · rw [runTiles, hstep] at h
      simp at h

/-- Characterization of a tile loop that aborted: a clean prefix followed by
exactly one abort, which is either the cancellation exit (the `cancelRead
true` observation immediately followed by the zeroed "Cancelled" snapshot,
with error value "Processing cancelled") or a failed upload (whose error
value carries that upload's message), with nothing after it. -/
theorem runTiles_some (cfg : ProcessConfig) (env : Env) (tot z : Nat) :
    ∀ (l : List (Nat × Nat)) (c : Counters) (evs : List Event) (c' : Counters) (e : String),
    runTiles cfg env tot z l c = (evs, c', some e) →
    ∃ pre, (∀ ev ∈ pre, cleanEv tot ev) ∧
      ((e = "Processing cancelled" ∧
        evs = pre ++ [Event.cancelRead true, Event.progressWrite cancelledUpdate]) ∨
       (∃ k zz x y url, env.uploadOk k = false ∧ e = "Upload failed: " ++ env.uploadErrMsg k ∧
        evs = pre ++ [Event.cancelRead false, Event.uploadTile zz x y url false])) := by
  intro l
  induction l with
  | nil =>
    intro c evs c' e h
    simp only [runTiles, Prod.mk.injEq] at h
    exact absurd h.2.2 (by simp)
  | cons p rest ih =>
    intro c evs c' e h
    rcases processTileStep_cases cfg env tot z p c with ⟨hc, hstep⟩ | ⟨hc, hu, hstep⟩ |
      ⟨hc, hu, hstep⟩
    · rw [runTiles, hstep] at h
      dsimp only at h
      simp only [Prod.mk.injEq, Option.some.injEq] at h
      obtain ⟨rfl, -, rfl⟩ := h
      exact ⟨[], by simp, Or.inl ⟨rfl, by simp⟩⟩
    · rw [runTiles, hstep] at h
      dsimp only at h
      rcases hrt : runTiles cfg env tot z rest
          { cancelReads := c.cancelReads + 1, uploads := c.uploads + 1,
            current_tile := c.current_tile + 1, max_zoom := c.max_zoom } with ⟨evs2, c2, r⟩
      rw [hrt] at h
      dsimp only at h
      simp only [Prod.mk.injEq] at h
      obtain ⟨rfl, rfl, hr⟩ := h
      rcases r with - | e0
      · simp at hr
      · have he0 : e0 = e := by simpa using hr
        subst he0
        obtain ⟨pre2, hpre2, hshape⟩ := ih _ _ _ _ hrt
        refine ⟨[Event.cancelRead false,
          Event.uploadTile z (p.1 * cfg.tile_size) (p.2 * cfg.tile_size)
            (tileUploadUrl cfg env.layout_path z (p.1 * cfg.tile_size) (p.2 * cfg.tile_size))
            true,
          Event.progressWrite
            { current := c.current_tile + 1, total := tot, zoom_level := z,
              percentage := (c.current_tile + 1) * 100 / tot,
              status := statusMsg z (c.current_tile + 1) tot }] ++ pre2, ?_, ?_⟩
        · intro ev hev
          rcases List.mem_append.mp hev with hev | hev
          · simp only [List.mem_cons, List.not_mem_nil, or_false] at hev
            rcases hev with rfl | rfl | rfl
            · exact rfl
            · exact rfl
            · exact rfl
          · exact hpre2 ev hev
        · rcases hshape with ⟨he, hevs⟩ | ⟨k, zz, x, y, url, hk, he, hevs⟩
          · exact Or.inl ⟨he, by rw [hevs]; simp⟩
          · exact Or.inr ⟨k, zz, x, y, url, hk, he, by rw [hevs]; simp⟩
    · rw [runTiles, hstep] at h
      dsimp only at h
      simp only [Prod.mk.injEq, Option.some.injEq] at h
      obtain ⟨rfl, -, rfl⟩ := h
      exact ⟨[], by simp,
        Or.inr ⟨c.uploads, z, p.1 * cfg.tile_size, p.2 * cfg.tile_size,
          tileUploadUrl cfg env.layout_path z (p.1 * cfg.tile_size) (p.2 * cfg.tile_size),
          hu, rfl, by simp⟩⟩

/-- The two possible entries into one zoom-level iteration: the cancel
checkpoint aborts, or the level's tile grid is processed with `max_zoom`
raised to this level. -/
theorem processLevel_cases (cfg : ProcessConfig) (env : Env) (w h tot z : Nat) (c : Counters) :
    (env.cancel c.cancelReads = true ∧
      processLevel cfg env w h tot z c =
        ([Event.cancelRead true, Event.progressWrite cancelledUpdate],
          { cancelReads := c.cancelReads + 1, uploads := c.uploads,
            current_tile := c.current_tile, max_zoom := c.max_zoom },
          some "Processing cancelled")) ∨
    (env.cancel c.cancelReads = false ∧
      ∃ evsT cT rT,
        runTiles cfg env tot z
          (tilePairs (levelLayout cfg.tile_size w h z).tiles_x
            (levelLayout cfg.tile_size w h z).tiles_y)
          { cancelReads := c.cancelReads + 1, uploads := c.uploads,
            current_tile := c.current_tile, max_zoom := max c.max_zoom z } = (evsT, cT, rT) ∧
        processLevel cfg env w h tot z c = (Event.cancelRead false :: evsT, cT, rT)) := by
  by_cases hc : env.cancel c.cancelReads
  · left
    refine ⟨hc, ?_⟩
    simp [processLevel, hc]
  · right
    refine ⟨by simpa using hc, ?_⟩
    rcases hrt : runTiles cfg env tot z
        (tilePairs (levelLayout cfg.tile_size w h z).tiles_x
          (levelLayout cfg.tile_size w h z).tiles_y)
        { cancelReads := c.cancelReads + 1, uploads := c.uploads,
          current_tile := c.current_tile, max_zoom := max c.max_zoom z } with ⟨evsT, cT, rT⟩
    refine ⟨evsT, cT, rT, rfl, ?_⟩
    rw [processLevel]
    dsimp only
    rw [if_neg hc, hrt]

/-- Characterization of a level loop that ran to completion: every event is
clean, the uploads are exactly the per-level tile grids concatenated in the
order of the level list, the cancel flag is read once per level plus once per
tile, and `max_zoom` accumulates the maximum of the levels seen. -/
theorem runLevels_none (cfg : ProcessConfig) (env : Env) (w h tot : Nat) :
    ∀ (levels : List Nat) (c : Counters) (evs : List Event) (c' : Counters),
    runLevels cfg env w h tot levels c = (evs, c', none) →
    (∀ e ∈ evs, cleanEv tot e) ∧
    upZooms evs =
      levels.flatMap (fun z => List.replicate (levelTileCount cfg.tile_size w h z) z) ∧
    c'.cancelReads =
      c.cancelReads + levels.length + (levels.map (levelTileCount cfg.tile_size w h)).sum ∧
    c'.uploads = c.uploads + (levels.map (levelTileCount cfg.tile_size w h)).sum ∧
    c'.current_tile = c.current_tile + (levels.map (levelTileCount cfg.tile_size w h)).sum ∧
    c'.max_zoom = levels.foldl max c.max_zoom := by
  intro levels
  induction levels with
  | nil =>
    intro c evs c' hrun
    simp only [runLevels, Prod.mk.injEq] at hrun
    obtain ⟨rfl, rfl, -⟩ := hrun
    simp [upZooms]
  | cons z rest ih =>
    intro c evs c' hrun
    rcases processLevel_cases cfg env w h tot z c with ⟨hc, hpl⟩ | ⟨hc, evsT, cT, rT, hrt, hpl⟩
    · rw [runLevels, hpl] at hrun
      dsimp only at hrun
      simp at hrun
    · rcases rT with - | e0
      · rw [runLevels, hpl] at hrun
        dsimp only at hrun
        rcases hrl : runLevels cfg env w h tot rest cT with ⟨evs2, c2, r2⟩
        rw [hrl] at hrun
        dsimp only at hrun
        simp only [Prod.mk.injEq] at hrun
        obtain ⟨rfl, rfl, hr2⟩ := hrun
        obtain ⟨hcleanT, hzoomsT, ht1, ht2, ht3, ht4⟩ := runTiles_none cfg env tot z _ _ _ _ hrt
        subst hr2
        obtain ⟨hclean2, hzooms2, hl1, hl2, hl3, hl4⟩ := ih _ _ _ hrl
        have hlen : (tilePairs (levelLayout cfg.tile_size w h z).tiles_x
            (levelLayout cfg.tile_size w h z).tiles_y).length =
            levelTileCount cfg.tile_size w h z := by
          rw [tilePairs_length, levelTileCount]
        simp only at ht1 ht2 ht3 ht4
        rw [hlen] at ht1 ht2 ht3
        refine ⟨?_, ?_, ?_, ?_, ?_, ?_⟩
        · intro e he
          rcases List.mem_cons.mp he with rfl | he
          · exact rfl
          · rcases List.mem_append.mp he with he | he
            · exact hcleanT e he
            · exact hclean2 e he
        · show upZooms (Event.cancelRead false :: (evsT ++ evs2)) = _
          have : upZooms (Event.cancelRead false :: (evsT ++ evs2)) =
              upZooms evsT ++ upZooms evs2 := by
            simp [upZooms]
          rw [this, hzoomsT, hzooms2, hlen]
          simp [List.flatMap_cons]
        · rw [hl1, ht1]
          simp [List.map_cons, List.sum_cons]
          omega
        · rw [hl2, ht2]
          simp [List.map_cons, List.sum_cons]
          omega
        · rw [hl3, ht3]
          simp [List.map_cons, List.sum_cons]
          omega
        · rw [hl4, ht4]
          rfl
      · rw [runLevels, hpl] at hrun
        dsimp only at hrun
        simp at hrun

/-- Characterization of a level loop that aborted: a clean prefix followed by
exactly one abort (cancellation exit with the zeroed "Cancelled" snapshot, or
a failed upload), with nothing after it. -/
theorem runLevels_some (cfg : ProcessConfig) (env : Env) (w h tot : Nat) :
    ∀ (levels : List Nat) (c : Counters) (evs : List Event) (c' : Counters) (e : String),
    runLevels cfg env w h tot levels c = (evs, c', some e) →
    ∃ pre, (∀ ev ∈ pre, cleanEv tot ev) ∧
      ((e = "Processing cancelled" ∧
        evs = pre ++ [Event.cancelRead true, Event.progressWrite cancelledUpdate]) ∨
       (∃ k zz x y url, env.uploadOk k = false ∧ e = "Upload failed: " ++ env.uploadErrMsg k ∧
        evs = pre ++ [Event.cancelRead false, Event.uploadTile zz x y url false])) := by
  intro levels
  induction levels with
  | nil =>
    intro c evs c' e hrun
    simp only [runLevels, Prod.mk.injEq] at hrun
    exact absurd hrun.2.2 (by simp)
  | cons z rest ih =>
    intro c evs c' e hrun
    rcases processLevel_cases cfg env w h tot z c with ⟨hc, hpl⟩ | ⟨hc, evsT, cT, rT, hrt, hpl⟩
    · rw [runLevels, hpl] at hrun
      dsimp only at hrun
      simp only [Prod.mk.injEq, Option.some.injEq] at hrun
      obtain ⟨rfl, -, rfl⟩ := hrun
      exact ⟨[], by simp, Or.inl ⟨rfl, by simp⟩⟩
    · rcases rT with - | e0
      · rw [runLevels, hpl] at hrun
        dsimp only at hrun
        rcases hrl : runLevels cfg env w h tot rest cT with ⟨evs2, c2, r2⟩
        rw [hrl] at hrun
        dsimp only at hrun
        simp only [Prod.mk.injEq] at hrun
        obtain ⟨rfl, rfl, hr2⟩ := hrun
        rcases r2 with - | e2
        · simp at hr2
        · have he2 : e2 = e := by simpa using hr2
          subst he2
          obtain ⟨hcleanT, -, -, -, -, -⟩ := runTiles_none cfg env tot z _ _ _ _ hrt
          obtain ⟨pre2, hpre2, hshape⟩ := ih _ _ _ _ hrl
          refine ⟨Event.cancelRead false :: evsT ++ pre2, ?_, ?_⟩
          · intro ev hev
            rcases List.mem_cons.mp hev with rfl | hev
            · exact rfl
            · rcases List.mem_append.mp hev with hev | hev
              · exact hcleanT ev hev
              · exact hpre2 ev hev
          · rcases hshape with ⟨he, hevs⟩ | ⟨k, zz, x, y, url, hk, he, hevs⟩
            · exact Or.inl ⟨he, by rw [hevs]; simp⟩
            · exact Or.inr ⟨k, zz, x, y, url, hk, he, by rw [hevs]; simp⟩
      · rw [runLevels, hpl] at hrun
        dsimp only at hrun
        simp only [Prod.mk.injEq, Option.some.injEq] at hrun
        obtain ⟨rfl, -, rfl⟩ := hrun
        obtain ⟨pre2, hpre2, hshape⟩ := runTiles_some cfg env tot z _ _ _ _ _ hrt
        refine ⟨Event.cancelRead false :: pre2, ?_, ?_⟩
        · intro ev hev
          rcases List.mem_cons.mp hev with rfl | hev
          · exact rfl
          · exact hpre2 ev hev
        · rcases hshape with ⟨he, hevs⟩ | ⟨k, zz, x, y, url, hk, he, hevs⟩
          · exact Or.inl ⟨he, by rw [hevs]; simp⟩
          · exact Or.inr ⟨k, zz, x, y, url, hk, he, by rw [hevs]; simp⟩

/-- If the cancel flag stays `false` for every read the tile loop performs
and every upload succeeds, the tile loop does not abort. -/
theorem runTiles_completes (cfg : ProcessConfig) (env : Env) (tot z : Nat) :
    ∀ (l : List (Nat × Nat)) (c : Counters),
    (∀ k, k < c.cancelReads + l.length → env.cancel k = false) →
    (∀ k, env.uploadOk k = true) →
    (runTiles cfg env tot z l c).2.2 = none := by
  intro l
  induction l with
  | nil =>
    intro c _ _
    simp [runTiles]
  | cons p rest ih =>
    intro c hcancel hupload
    have hc : env.cancel c.cancelReads = false := hcancel _ (by simp)
    have hu : env.uploadOk c.uploads = true := hupload _
    rcases processTileStep_cases cfg env tot z p c with ⟨hc', -⟩ | ⟨-, -, hstep⟩ | ⟨-, hu', -⟩
    · rw [hc'] at hc
      cases hc
    · have hres := ih ⟨c.cancelReads + 1, c.uploads + 1, c.current_tile + 1, c.max_zoom⟩
        (fun k hk => hcancel k (by simp at hk ⊢; omega)) hupload
      rw [runTiles, hstep]
      dsimp only
      rcases hrt : runTiles cfg env tot z rest
          { cancelReads := c.cancelReads + 1, uploads := c.uploads + 1,
            current_tile := c.current_tile + 1, max_zoom := c.max_zoom } with ⟨evs2, c2, r⟩
      rw [hrt] at hres
      dsimp only
      simpa using hres
    · rw [hu'] at hu
      cases hu

/-- If the cancel flag stays `false` for every read the level loop performs
(one per level plus one per tile) and every upload succeeds, the level loop
does not abort. -/
theorem runLevels_completes (cfg : ProcessConfig) (env : Env) (w h tot : Nat) :
    ∀ (levels : List Nat) (c : Counters),
    (∀ k, k < c.cancelReads + levels.length +
      (levels.map (levelTileCount cfg.tile_size w h)).sum → env.cancel k = false) →
    (∀ k, env.uploadOk k = true) →
    (runLevels cfg env w h tot levels c).2.2 = none := by
  intro levels
  induction levels with
  | nil =>
    intro c _ _
    simp [runLevels]
  | cons z rest ih =>
    intro c hcancel hupload
    have hc : env.cancel c.cancelReads = false := hcancel _ (by simp; omega)
    rcases processLevel_cases cfg env w h tot z c with ⟨hc', -⟩ | ⟨-, evsT, cT, rT, hrt, hpl⟩
    · rw [hc'] at hc
      cases hc
    · have hlenT : (tilePairs (levelLayout cfg.tile_size w h z).tiles_x
          (levelLayout cfg.tile_size w h z).tiles_y).length =
          levelTileCount cfg.tile_size w h z := by
        rw [tilePairs_length, levelTileCount]
      have hTnone : rT = none := by
        have := runTiles_completes cfg env tot z
          (tilePairs (levelLayout cfg.tile_size w h z).tiles_x
            (levelLayout cfg.tile_size w h z).tiles_y)
          ⟨c.cancelReads + 1, c.uploads, c.current_tile, max c.max_zoom z⟩
          (fun k hk => by
            refine hcancel k ?_
            rw [hlenT] at hk
            simp only [List.length_cons, List.map_cons, List.sum_cons] at hk ⊢
            omega)
          hupload
        rw [hrt] at this
        simpa using this
      subst hTnone
      obtain ⟨-, -, ht1, ht2, ht3, -⟩ := runTiles_none cfg env tot z _ _ _ _ hrt
      simp only at ht1 ht2 ht3
      rw [hlenT] at ht1 ht2 ht3
      rw [runLevels, hpl]
      dsimp only
      rcases hrl : runLevels cfg env w h tot rest cT with ⟨evs2, c2, r2⟩
      have hres := ih cT
        (fun k hk => by
          refine hcancel k ?_
          simp only [List.length_cons, List.map_cons, List.sum_cons]
          omega)
        hupload
      rw [hrl] at hres
      dsimp only
      simpa using hres

/-- Every upload event the tile loop emits carries pixel offsets
`tile_x * tile_size`, `tile_y * tile_size` and the URL built from them. -/
theorem runTiles_wellFormed (cfg : ProcessConfig) (env : Env) (tot z : Nat) :
    ∀ (l : List (Nat × Nat)) (c : Counters) (zz x y : Nat) (url : String) (ok : Bool),
    Event.uploadTile zz x y url ok ∈ (runTiles cfg env tot z l c).1 →
    ∃ tx ty, x = tx * cfg.tile_size ∧ y = ty * cfg.tile_size ∧
      url = tileUploadUrl cfg env.layout_path zz x y := by
  intro l
  induction l with
  | nil =>
    intro c zz x y url ok hmem
    simp [runTiles] at hmem
  | cons p rest ih =>
    intro c zz x y url ok hmem
    rcases processTileStep_cases cfg env tot z p c with ⟨-, hstep⟩ | ⟨-, -, hstep⟩ |
      ⟨-, -, hstep⟩
    · rw [runTiles, hstep] at hmem
      dsimp only at hmem
      simp at hmem
    · rw [runTiles, hstep] at hmem
      dsimp only at hmem
      rcases hrt : runTiles cfg env tot z rest
          { cancelReads := c.cancelReads + 1, uploads := c.uploads + 1,
            current_tile := c.current_tile + 1, max_zoom := c.max_zoom } with ⟨evs2, c2, r⟩
      rw [hrt] at hmem
      dsimp only at hmem
      rcases List.mem_append.mp hmem with hmem | hmem
      · simp only [List.mem_cons, List.not_mem_nil, or_false] at hmem
        rcases hmem with hmem | hmem | hmem
        · cases hmem
        · simp only [Event.uploadTile.injEq] at hmem
          obtain ⟨rfl, rfl, rfl, rfl, -⟩ := hmem
          exact ⟨p.1, p.2, rfl, rfl, rfl⟩
        · cases hmem
      · have : Event.uploadTile zz x y url ok ∈ (runTiles cfg env tot z rest
            { cancelReads := c.cancelReads + 1, uploads := c.uploads + 1,
              current_tile := c.current_tile + 1, max_zoom := c.max_zoom }).1 := by
          rw [hrt]
          exact hmem
        exact ih _ zz x y url ok this
    · rw [runTiles, hstep] at hmem
      dsimp only at hmem
      simp only [List.mem_cons, List.not_mem_nil, or_false] at hmem
      rcases hmem with hmem | hmem
      · cases hmem
      · simp only [Event.uploadTile.injEq] at hmem
        obtain ⟨rfl, rfl, rfl, rfl, -⟩ := hmem
        exact ⟨p.1, p.2, rfl, rfl, rfl⟩

/-- Every upload event the level loop emits carries pixel offsets and the
URL built from them. -/
theorem runLevels_wellFormed (cfg : ProcessConfig) (env : Env) (w h tot : Nat) :
    ∀ (levels : List Nat) (c : Counters) (zz x y : Nat) (url : String) (ok : Bool),
    Event.uploadTile zz x y url ok ∈ (runLevels cfg env w h tot levels c).1 →
    ∃ tx ty, x = tx * cfg.tile_size ∧ y = ty * cfg.tile_size ∧
      url = tileUploadUrl cfg env.layout_path zz x y := by
  intro levels
  induction levels with
  | nil =>
    intro c zz x y url ok hmem
    simp [runLevels] at hmem
  | cons z rest ih =>
    intro c zz x y url ok hmem
    rcases processLevel_cases cfg env w h tot z c with ⟨-, hpl⟩ | ⟨-, evsT, cT, rT, hrt, hpl⟩
    · rw [runLevels, hpl] at hmem
      dsimp only at hmem
      simp at hmem
    · rcases rT with - | e0
      · rw [runLevels, hpl] at hmem
        dsimp only at hmem
        rcases hrl : runLevels cfg env w h tot rest cT with ⟨evs2, c2, r2⟩
        rw [hrl] at hmem
        dsimp only at hmem
        rcases List.mem_cons.mp hmem with hmem | hmem
        · cases hmem
        · rcases List.mem_append.mp hmem with hmem | hmem
          · refine runTiles_wellFormed cfg env tot z
              (tilePairs (levelLayout cfg.tile_size w h z).tiles_x
                (levelLayout cfg.tile_size w h z).tiles_y)
              ⟨c.cancelReads + 1, c.uploads, c.current_tile, max c.max_zoom z⟩
              zz x y url ok ?_
            rw [hrt]
            exact hmem
          · refine ih cT zz x y url ok ?_
            rw [hrl]
            exact hmem
      · rw [runLevels, hpl] at hmem
        dsimp only at hmem
        rcases List.mem_cons.mp hmem with hmem | hmem
        · cases hmem
        · refine runTiles_wellFormed cfg env tot z
            (tilePairs (levelLayout cfg.tile_size w h z).tiles_x
              (levelLayout cfg.tile_size w h z).tiles_y)
            ⟨c.cancelReads + 1, c.uploads, c.current_tile, max c.max_zoom z⟩
            zz x y url ok ?_
          rw [hrt]
          exact hmem

/-- Top-level case analysis of `process_tiles`: either the level loop aborted
and its error is returned, or it completed and the final cancellation check
decides between the cancellation exit and the finalize call (which succeeds
or fails according to the environment). -/
theorem process_tiles_cases (cfg : ProcessConfig) (env : Env) (w h : Nat) :
    (∃ evs cE e,
      runLevels cfg env w h (totalTiles (get_max_zoom_levels cfg.tile_size w h))
        ((List.range (get_max_zoom_levels cfg.tile_size w h)).reverse)
        ⟨0, 0, 0, 0⟩ = (evs, cE, some e) ∧
      process_tiles cfg env w h = (evs, Except.error e)) ∨
    (∃ evs cE,
      runLevels cfg env w h (totalTiles (get_max_zoom_levels cfg.tile_size w h))
        ((List.range (get_max_zoom_levels cfg.tile_size w h)).reverse)
        ⟨0, 0, 0, 0⟩ = (evs, cE, none) ∧
      ((env.cancel cE.cancelReads = true ∧
        process_tiles cfg env w h =
          (evs ++ [Event.cancelRead true, Event.progressWrite cancelledUpdate],
            Except.error "Processing cancelled")) ∨
       (env.cancel cE.cancelReads = false ∧ env.finalizeOk = true ∧
        process_tiles cfg env w h =
          (evs ++ [Event.cancelRead false, Event.finalizeCall cE.max_zoom],
            Except.ok cE.max_zoom)) ∨
       (env.cancel cE.cancelReads = false ∧ env.finalizeOk = false ∧
        process_tiles cfg env w h =
          (evs ++ [Event.cancelRead false, Event.finalizeCall cE.max_zoom],
            Except.error ("Failed to finalize upload: " ++ env.finalizeErrMsg))))) := by
  rcases hrl : runLevels cfg env w h (totalTiles (get_max_zoom_levels cfg.tile_size w h))
      ((List.range (get_max_zoom_levels cfg.tile_size w h)).reverse)
      ⟨0, 0, 0, 0⟩ with ⟨evs, cE, r⟩
  rcases r with - | e
  · right
    refine ⟨evs, cE, rfl, ?_⟩
    by_cases hc : env.cancel cE.cancelReads
    · left
      refine ⟨hc, ?_⟩
      rw [process_tiles]
      dsimp only
      rw [hrl]
      dsimp only
      rw [if_pos hc]
    · by_cases hf : env.finalizeOk
      · right; left
        refine ⟨by simpa using hc, hf, ?_⟩
        rw [process_tiles]
        dsimp only
        rw [hrl]
        dsimp only
        rw [if_neg hc, if_pos hf]
      · right; right
        refine ⟨by simpa using hc, by simpa using hf, ?_⟩
        rw [process_tiles]
        dsimp only
        rw [hrl]
        dsimp only
        rw [if_neg hc, if_neg hf]
  · left
    refine ⟨evs, cE, e, rfl, ?_⟩
    rw [process_tiles]
    dsimp only
    rw [hrl]

/-- Unfolding step of the `total_tiles` loop. -/
theorem totalTiles_succ (k : Nat) : totalTiles (k + 1) = totalTiles k + 4 ^ k := by
  simp [totalTiles, List.range_succ]

/-- For positive inputs the slicer grid of a level is exactly
`2^level` by `2^level`. -/
theorem levelLayout_tiles (width height tile_size zoom_level : Nat)
    (hw : 1 ≤ width) (hh : 1 ≤ height) (ht : 1 ≤ tile_size) :
    (levelLayout tile_size width height zoom_level).tiles_x = 2 ^ zoom_level ∧
    (levelLayout tile_size width height zoom_level).tiles_y = 2 ^ zoom_level := by
  have hmd : 0 < max width height := by omega
  have hwle : width * (2 ^ zoom_level * tile_size) / max width height ≤
      2 ^ zoom_level * tile_size := by
    calc width * (2 ^ zoom_level * tile_size) / max width height
        ≤ max width height * (2 ^ zoom_level * tile_size) / max width height :=
          Nat.div_le_div_right (Nat.mul_le_mul_right _ (le_max_left _ _))
      _ = 2 ^ zoom_level * tile_size := Nat.mul_div_cancel_left _ hmd
  have hhle : height * (2 ^ zoom_level * tile_size) / max width height ≤
      2 ^ zoom_level * tile_size := by
    calc height * (2 ^ zoom_level * tile_size) / max width height
        ≤ max width height * (2 ^ zoom_level * tile_size) / max width height :=
          Nat.div_le_div_right (Nat.mul_le_mul_right _ (le_max_right _ _))
      _ = 2 ^ zoom_level * tile_size := Nat.mul_div_cancel_left _ hmd
  constructor
  · have h1 : (levelLayout tile_size width height zoom_level).tiles_x =
        (width * (2 ^ zoom_level * tile_size) / max width height +
          (2 ^ zoom_level * tile_size -
            width * (2 ^ zoom_level * tile_size) / max width height)) / tile_size := by
      simp only [levelLayout]
    rw [h1, show width * (2 ^ zoom_level * tile_size) / max width height +
        (2 ^ zoom_level * tile_size -
          width * (2 ^ zoom_level * tile_size) / max width height) =
        2 ^ zoom_level * tile_size by omega, Nat.mul_div_cancel _ (by omega)]
  · have h1 : (levelLayout tile_size width height zoom_level).tiles_y =
        (height * (2 ^ zoom_level * tile_size) / max width height +
          (2 ^ zoom_level * tile_size -
            height * (2 ^ zoom_level * tile_size) / max width height)) / tile_size := by
      simp only [levelLayout]
    rw [h1, show height * (2 ^ zoom_level * tile_size) / max width height +
        (2 ^ zoom_level * tile_size -
          height * (2 ^ zoom_level * tile_size) / max width height) =
        2 ^ zoom_level * tile_size by omega, Nat.mul_div_cancel _ (by omega)]

/-- For positive inputs each level holds exactly `4^level` tiles. -/
theorem levelTileCount_eq (width height tile_size zoom_level : Nat)
    (hw : 1 ≤ width) (hh : 1 ≤ height) (ht : 1 ≤ tile_size) :
    levelTileCount tile_size width height zoom_level = 4 ^ zoom_level := by
  obtain ⟨h1, h2⟩ := levelLayout_tiles width height tile_size zoom_level hw hh ht
  rw [levelTileCount, h1, h2, show (4 : Nat) = 2 * 2 by norm_num, Nat.mul_pow]

/-- The per-level quad-tree powers over `0..n` sum to the `total_tiles`
value. -/
theorem map_pow_range_sum (n : Nat) :
    ((List.range n).map (fun i => 4 ^ i)).sum = totalTiles n := by
  induction n with
  | zero => rfl
  | succ k ih =>
    rw [List.range_succ, List.map_append, List.sum_append, ih, totalTiles_succ]
    simp

/-- The tile counts of the levels processed in descending order sum to the
`total_tiles` denominator. -/
theorem sum_ltc_range_reverse (tile_size width height n : Nat)
    (hw : 1 ≤ width) (hh : 1 ≤ height) (ht : 1 ≤ tile_size) :
    (((List.range n).reverse).map (levelTileCount tile_size width height)).sum =
      totalTiles n := by
  have hfun : levelTileCount tile_size width height = fun z => 4 ^ z :=
    funext fun z => levelTileCount_eq width height tile_size z hw hh ht
  rw [hfun, List.map_reverse, List.sum_reverse, map_pow_range_sum]

/-- Folding `max` over elements that are all below the seed keeps the seed. -/
theorem foldl_max_of_le : ∀ (l : List Nat) (a : Nat), (∀ x ∈ l, x ≤ a) →
    l.foldl max a = a := by
  intro l
  induction l with
  | nil => intro a _; rfl
  | cons x xs ih =>
    intro a hx
    have hmax : max a x = a := Nat.max_eq_left (hx x (by simp))
    rw [List.foldl_cons, hmax]
    exact ih a fun y hy => hx y (by simp [hy])

/-- Folding the `max_zoom` update over the descending level list yields the
finest (largest) level. -/
theorem foldl_max_range_reverse (n : Nat) (hn : 1 ≤ n) :
    ((List.range n).reverse).foldl max 0 = n - 1 := by
  obtain ⟨k, rfl⟩ : ∃ k, n = k + 1 := ⟨n - 1, by omega⟩
  rw [List.range_succ, List.reverse_append]
  simp only [List.reverse_singleton, List.singleton_append, List.foldl_cons]
  rw [show max 0 k = k by simp]
  rw [foldl_max_of_le _ k fun x hx => by
    have : x ∈ List.range k := List.mem_reverse.mp hx
    have := List.mem_range.mp this
    omega]
  omega

/-- A clean event list contains no `true` cancel observation. -/
theorem cleanEv_no_cancelTrue {tot : Nat} {l : List Event} (hc : ∀ e ∈ l, cleanEv tot e)
    (hmem : Event.cancelRead true ∈ l) : False := by
  have := hc _ hmem
  simp [cleanEv] at this

/-- A clean event list contains no failed upload. -/
theorem cleanEv_no_failUpload {tot zz x y : Nat} {url : String} {l : List Event}
    (hc : ∀ e ∈ l, cleanEv tot e) (hmem : Event.uploadTile zz x y url false ∈ l) : False := by
  have := hc _ hmem
  simp [cleanEv] at this

/-- A clean event list contains no finalize call. -/
theorem cleanEv_no_finalize {tot mz : Nat} {l : List Event}
    (hc : ∀ e ∈ l, cleanEv tot e) (hmem : Event.finalizeCall mz ∈ l) : False := by
  have := hc _ hmem
  simp [cleanEv] at this

/-- In a clean event list every progress write carries the fixed total. -/
theorem cleanEv_progress_total {tot : Nat} {p : ProgressUpdate} {l : List Event}
    (hc : ∀ e ∈ l, cleanEv tot e) (hmem : Event.progressWrite p ∈ l) : p.total = tot := by
  have := hc _ hmem
  simpa [cleanEv] using this

/-- Length of the per-level replicated zoom lists. -/
theorem length_flatMap_replicate (levels : List Nat) (f : Nat → Nat) :
    (levels.flatMap (fun z => List.replicate (f z) z)).length = (levels.map f).sum := by
  induction levels with
  | nil => rfl
  | cons z rest ih => simp [ih]

/-- C4: whenever a cancellation checkpoint observes the flag `true`, the run
stops immediately: the trace ends with that observation followed by the
terminal snapshot whose status is "Cancelled" and whose current, total,
zoomLevel and percentage fields are all zero, no event (in particular no
upload) follows it, the observation is the only `true` one, and the result
is the distinguished "Processing cancelled" error rather than a generic
failure. -/
theorem claimC4_cancel_stops_run (cfg : ProcessConfig) (env : Env) (width height : Nat)
    (hobs : Event.cancelRead true ∈ (process_tiles cfg env width height).1) :
    (process_tiles cfg env width height).2 = Except.error "Processing cancelled" ∧
    ∃ pre, (process_tiles cfg env width height).1 =
        pre ++ [Event.cancelRead true,
          Event.progressWrite
            { current := 0, total := 0, zoom_level := 0, percentage := 0,
              status := "Cancelled" }] ∧
      Event.cancelRead true ∉ pre := by
  rcases process_tiles_cases cfg env width height with
    ⟨evs, cE, e, hrl, hpt⟩ | ⟨evs, cE, hrl, hbranch⟩
  · obtain ⟨pre, hpre, hshape⟩ := runLevels_some cfg env width height _ _ _ _ _ _ hrl
    rcases hshape with ⟨he, hevs⟩ | ⟨k, zz, x, y, url, hk, he, hevs⟩
    · subst he
      subst hevs
      refine ⟨by rw [hpt], pre, by rw [hpt]; rfl, fun hmem => cleanEv_no_cancelTrue hpre hmem⟩
    · exfalso
      rw [hpt] at hobs
      simp only at hobs
      rw [hevs] at hobs
      rcases List.mem_append.mp hobs with hmem | hmem
      · exact cleanEv_no_cancelTrue hpre hmem
      · simp at hmem
  · obtain ⟨hclean, -, -, -, -, -⟩ := runLevels_none cfg env width height _ _ _ _ _ hrl
    rcases hbranch with ⟨-, hpt⟩ | ⟨-, -, hpt⟩ | ⟨-, -, hpt⟩
    · refine ⟨by rw [hpt], evs, by rw [hpt]; rfl, fun hmem => cleanEv_no_cancelTrue hclean hmem⟩
    · exfalso
      rw [hpt] at hobs
      simp only at hobs
      rcases List.mem_append.mp hobs with hmem | hmem
      · exact cleanEv_no_cancelTrue hclean hmem
      · simp at hmem
    · exfalso
      rw [hpt] at hobs
      simp only at hobs
      rcases List.mem_append.mp hobs with hmem | hmem
      · exact cleanEv_no_cancelTrue hclean hmem
      · simp at hmem

/-- A demonstration configuration used by the concrete witnesses below. -/
def demoCfg : ProcessConfig :=
  { server_address := "http://srv/", layout_key := "key", secret := "sec",
    background_color := (0, 0, 0), tile_size := 256 }

/-- An environment where nothing is cancelled and every HTTP call succeeds. -/
def okEnv : Env :=
  { cancel := fun _ => false, uploadOk := fun _ => true, uploadErrMsg := fun _ => "",
    finalizeOk := true, finalizeErrMsg := "", layout_path := "p0" }

/-- An environment whose cancel flag reads `true` from the third read on. -/
def cancelAt2Env : Env := { okEnv with cancel := fun k => decide (2 ≤ k) }

/-- An environment whose upload at index 3 (the fourth tile of a run) fails. -/
def failAt3Env : Env :=
  { okEnv with uploadOk := fun k => decide (k ≠ 3), uploadErrMsg := fun _ => "http 500" }

/-- Witness for C4: a 512x512 / 256 run whose cancel flag turns `true` at the
third checkpoint is stopped there with the zeroed "Cancelled" snapshot. -/
theorem claimC4_witness :
    (process_tiles demoCfg cancelAt2Env 512 512).2 = Except.error "Processing cancelled" ∧
    ∃ pre, (process_tiles demoCfg cancelAt2Env 512 512).1 =
        pre ++ [Event.cancelRead true,
          Event.progressWrite
            { current := 0, total := 0, zoom_level := 0, percentage := 0,
              status := "Cancelled" }] ∧
      Event.cancelRead true ∉ pre :=
  claimC4_cancel_stops_run demoCfg cancelAt2Env 512 512 (by decide)

/-- C2: finalize is gated on complete success.  If the finalize call appears
in a run's trace then every one of the `total_tiles` uploads happened and
none failed; conversely if any tile upload fails, the run terminates with
that upload's error and the finalize call never appears. -/
theorem claimC2_finalize_gating (cfg : ProcessConfig) (env : Env) (width height : Nat)
    (hw : 1 ≤ width) (hh : 1 ≤ height) (ht : 1 ≤ cfg.tile_size) :
    (∀ mz, Event.finalizeCall mz ∈ (process_tiles cfg env width height).1 →
      uploadCount (process_tiles cfg env width height).1 =
        totalTiles (get_max_zoom_levels cfg.tile_size width height) ∧
      ∀ zz x y url, Event.uploadTile zz x y url false ∉ (process_tiles cfg env width height).1) ∧
    (∀ zz x y url, Event.uploadTile zz x y url false ∈ (process_tiles cfg env width height).1 →
      (∃ k, env.uploadOk k = false ∧
        (process_tiles cfg env width height).2 =
          Except.error ("Upload failed: " ++ env.uploadErrMsg k)) ∧
      ∀ mz, Event.finalizeCall mz ∉ (process_tiles cfg env width height).1) := by
  rcases process_tiles_cases cfg env width height with
    ⟨evs, cE, e, hrl, hpt⟩ | ⟨evs, cE, hrl, hbranch⟩
  · obtain ⟨pre, hpre, hshape⟩ := runLevels_some cfg env width height _ _ _ _ _ _ hrl
    rcases hshape with ⟨he, hevs⟩ | ⟨k, zz0, x0, y0, url0, hk, he, hevs⟩
    · constructor
      · intro mz hmem
        exfalso
        rw [hpt] at hmem
        simp only at hmem
        rw [hevs] at hmem
        rcases List.mem_append.mp hmem with hmem | hmem
        · exact cleanEv_no_finalize hpre hmem
        · simp at hmem
      · intro zz x y url hmem
        exfalso
        rw [hpt] at hmem
        simp only at hmem
        rw [hevs] at hmem
        rcases List.mem_append.mp hmem with hmem | hmem
        · exact cleanEv_no_failUpload hpre hmem
        · simp at hmem
    · constructor
      · intro mz hmem
        exfalso
        rw [hpt] at hmem
        simp only at hmem
        rw [hevs] at hmem
        rcases List.mem_append.mp hmem with hmem | hmem
        · exact cleanEv_no_finalize hpre hmem
        · simp at hmem
      · intro zz x y url hmem
        refine ⟨⟨k, hk, by rw [hpt, he]⟩, ?_⟩
        intro mz hmemf
        rw [hpt] at hmemf
        simp only at hmemf
        rw [hevs] at hmemf
        rcases List.mem_append.mp hmemf with hmemf | hmemf
        · exact cleanEv_no_finalize hpre hmemf
        · simp at hmemf
  · obtain ⟨hclean, hzooms, -, -, -, -⟩ := runLevels_none cfg env width height _ _ _ _ _ hrl
    have hcount : uploadCount evs =
        totalTiles (get_max_zoom_levels cfg.tile_size width height) := by
      rw [uploadCount, hzooms, length_flatMap_replicate,
        sum_ltc_range_reverse cfg.tile_size width height _ hw hh ht]
    rcases hbranch with ⟨-, hpt⟩ | ⟨-, -, hpt⟩ | ⟨-, -, hpt⟩
    · constructor
      · intro mz hmem
        exfalso
        rw [hpt] at hmem
        simp only at hmem
        rcases List.mem_append.mp hmem with hmem | hmem
        · exact cleanEv_no_finalize hclean hmem
        · simp at hmem
      · intro zz x y url hmem
        exfalso
        rw [hpt] at hmem
        simp only at hmem
        rcases List.mem_append.mp hmem with hmem | hmem
        · exact cleanEv_no_failUpload hclean hmem
        · simp at hmem
    · constructor
      · intro mz hmem
        constructor
        · rw [hpt]
          simp only [uploadCount]
          rw [upZooms_append]
          have htail : upZooms [Event.cancelRead false, Event.finalizeCall cE.max_zoom] = [] := by
            simp [upZooms]
          rw [htail, List.append_nil]
          exact hcount
        · intro zz x y url hmem2
          rw [hpt] at hmem2
          simp only at hmem2
          rcases List.mem_append.mp hmem2 with hmem2 | hmem2
          · exact cleanEv_no_failUpload hclean hmem2
          · simp at hmem2
      · intro zz x y url hmem
        exfalso
        rw [hpt] at hmem
        simp only at hmem
        rcases List.mem_append.mp hmem with hmem | hmem
        · exact cleanEv_no_failUpload hclean hmem
        · simp at hmem
    · constructor
      · intro mz hmem
        constructor
        · rw [hpt]
          simp only [uploadCount]
          rw [upZooms_append]
          have htail : upZooms [Event.cancelRead false, Event.finalizeCall cE.max_zoom] = [] := by
            simp [upZooms]
          rw [htail, List.append_nil]
          exact hcount
        · intro zz x y url hmem2
          rw [hpt] at hmem2
          simp only at hmem2
          rcases List.mem_append.mp hmem2 with hmem2 | hmem2
          · exact cleanEv_no_failUpload hclean hmem2
          · simp at hmem2
      · intro zz x y url hmem
        exfalso
        rw [hpt] at hmem
        simp only at hmem
        rcases List.mem_append.mp hmem with hmem | hmem
        · exact cleanEv_no_failUpload hclean hmem
        · simp at hmem

/-- Witness for C2 at the spec's scenario: a 5-tile run whose fourth upload
(index 3) fails; the failed upload appears in the trace, the run returns its
error, and finalize is never called. -/
theorem claimC2_witness :
    Event.uploadTile 1 256 256 (tileUploadUrl demoCfg "p0" 1 256 256) false ∈
      (process_tiles demoCfg failAt3Env 512 512).1 ∧
    ((∀ mz, Event.finalizeCall mz ∈ (process_tiles demoCfg failAt3Env 512 512).1 →
      uploadCount (process_tiles demoCfg failAt3Env 512 512).1 =
        totalTiles (get_max_zoom_levels demoCfg.tile_size 512 512) ∧
      ∀ zz x y url,
        Event.uploadTile zz x y url false ∉ (process_tiles demoCfg failAt3Env 512 512).1) ∧
    (∀ zz x y url,
      Event.uploadTile zz x y url false ∈ (process_tiles demoCfg failAt3Env 512 512).1 →
      (∃ k, failAt3Env.uploadOk k = false ∧
        (process_tiles demoCfg failAt3Env 512 512).2 =
          Except.error ("Upload failed: " ++ failAt3Env.uploadErrMsg k)) ∧
      ∀ mz, Event.finalizeCall mz ∉ (process_tiles demoCfg failAt3Env 512 512).1)) :=
  ⟨by decide, claimC2_finalize_gating demoCfg failAt3Env 512 512 (by decide) (by decide)
    (by decide)⟩

/-- C6: in an uncancelled, error-free run the uploads happen level by level
in strictly descending level order (`levelCount-1` first, `0` last, with the
`4^z` tiles of each level contiguous), and the finalize call carries
`maxZoom = levelCount - 1`, which is also the returned value. -/
theorem claimC6_descending_levels (cfg : ProcessConfig) (env : Env) (width height : Nat)
    (hw : 1 ≤ width) (hh : 1 ≤ height) (ht : 1 ≤ cfg.tile_size)
    (hcanc : ∀ k, env.cancel k = false) (hup : ∀ k, env.uploadOk k = true)
    (hfin : env.finalizeOk = true) :
    upZooms (process_tiles cfg env width height).1 =
      ((List.range (get_max_zoom_levels cfg.tile_size width height)).reverse).flatMap
        (fun z => List.replicate (4 ^ z) z) ∧
    Event.finalizeCall (get_max_zoom_levels cfg.tile_size width height - 1) ∈
      (process_tiles cfg env width height).1 ∧
    (process_tiles cfg env width height).2 =
      Except.ok (get_max_zoom_levels cfg.tile_size width height - 1) := by
  have hcomplete := runLevels_completes cfg env width height
    (totalTiles (get_max_zoom_levels cfg.tile_size width height))
    ((List.range (get_max_zoom_levels cfg.tile_size width height)).reverse)
    ⟨0, 0, 0, 0⟩ (fun k _ => hcanc k) hup
  rcases process_tiles_cases cfg env width height with
    ⟨evs, cE, e, hrl, hpt⟩ | ⟨evs, cE, hrl, hbranch⟩
  · rw [hrl] at hcomplete
    simp at hcomplete
  · obtain ⟨-, hzooms, -, -, -, hmax⟩ := runLevels_none cfg env width height _ _ _ _ _ hrl
    have hn1 : 1 ≤ get_max_zoom_levels cfg.tile_size width height := by
      have hdef : get_max_zoom_levels cfg.tile_size width height =
          ceilLog2 ((max width height + cfg.tile_size - 1) / cfg.tile_size) + 1 := rfl
      omega
    have hmz : cE.max_zoom = get_max_zoom_levels cfg.tile_size width height - 1 := by
      rw [hmax]
      simp only
      exact foldl_max_range_reverse _ hn1
    rcases hbranch with ⟨hcE, -⟩ | ⟨-, -, hpt⟩ | ⟨-, hf, -⟩
    · rw [hcanc cE.cancelReads] at hcE
      cases hcE
    · have hfun : (fun z => List.replicate
          (levelTileCount cfg.tile_size width height z) z) =
          fun z => List.replicate (4 ^ z) z :=
        funext fun z => by rw [levelTileCount_eq width height cfg.tile_size z hw hh ht]
      refine ⟨?_, ?_, ?_⟩
      · rw [hpt]
        simp only
        rw [upZooms_append]
        have htail : upZooms [Event.cancelRead false, Event.finalizeCall cE.max_zoom] = [] := by
          simp [upZooms]
        rw [htail, List.append_nil, hzooms, hfun]
      · rw [hpt]
        simp only
        rw [← hmz]
        simp
      · rw [hpt, hmz]
    · rw [hfin] at hf
      cases hf

/-- Witness for C6 at the spec's end-to-end example: a 512x512 image with
tile size 256 yields 2 levels and 5 tiles, uploads level 1 before level 0,
and finalizes with `maxZoom = 1`. -/
theorem claimC6_witness :
    get_max_zoom_levels 256 512 512 = 2 ∧ totalTiles 2 = 5 ∧
    upZooms (process_tiles demoCfg okEnv 512 512).1 =
      ((List.range (get_max_zoom_levels demoCfg.tile_size 512 512)).reverse).flatMap
        (fun z => List.replicate (4 ^ z) z) ∧
    Event.finalizeCall (get_max_zoom_levels demoCfg.tile_size 512 512 - 1) ∈
      (process_tiles demoCfg okEnv 512 512).1 ∧
    (process_tiles demoCfg okEnv 512 512).2 =
      Except.ok (get_max_zoom_levels demoCfg.tile_size 512 512 - 1) :=
  ⟨by decide, by decide,
    claimC6_descending_levels demoCfg okEnv 512 512 (by decide) (by decide) (by decide)
      (fun _ => rfl) (fun _ => rfl) rfl⟩

/-- C8: every tile upload of a run posts to the URL
`{server with trailing slashes stripped}/LayoutUtil/UploadTile/{layoutKey}/
{layoutPath}/{zoomLevel}/{x}/{y}?__sc__={secret}` where `(x, y)` are the
tile's absolute pixel offsets `tile_x * tile_size`, `tile_y * tile_size`,
not the grid indices themselves. -/
theorem claimC8_upload_url_form (cfg : ProcessConfig) (env : Env) (width height : Nat)
    (zz x y : Nat) (url : String) (ok : Bool)
    (hmem : Event.uploadTile zz x y url ok ∈ (process_tiles cfg env width height).1) :
    ∃ tx ty, x = tx * cfg.tile_size ∧ y = ty * cfg.tile_size ∧
      url = trimEndSlashes cfg.server_address ++ "/LayoutUtil/UploadTile/" ++
        cfg.layout_key ++ "/" ++ env.layout_path ++ "/" ++ toString zz ++ "/" ++
        toString x ++ "/" ++ toString y ++ "?__sc__=" ++ cfg.secret := by
  rcases process_tiles_cases cfg env width height with
    ⟨evs, cE, e, hrl, hpt⟩ | ⟨evs, cE, hrl, hbranch⟩
  · rw [hpt] at hmem
    simp only at hmem
    refine runLevels_wellFormed cfg env width height
      (totalTiles (get_max_zoom_levels cfg.tile_size width height))
      ((List.range (get_max_zoom_levels cfg.tile_size width height)).reverse)
      ⟨0, 0, 0, 0⟩ zz x y url ok ?_
    rw [hrl]
    exact hmem
  · have hof : Event.uploadTile zz x y url ok ∈ evs → ∃ tx ty,
        x = tx * cfg.tile_size ∧ y = ty * cfg.tile_size ∧
        url = tileUploadUrl cfg env.layout_path zz x y := fun hm => by
      refine runLevels_wellFormed cfg env width height
        (totalTiles (get_max_zoom_levels cfg.tile_size width height))
        ((List.range (get_max_zoom_levels cfg.tile_size width height)).reverse)
        ⟨0, 0, 0, 0⟩ zz x y url ok ?_
      rw [hrl]
      exact hm
    rcases hbranch with ⟨-, hpt⟩ | ⟨-, -, hpt⟩ | ⟨-, -, hpt⟩
    · rw [hpt] at hmem
      simp only at hmem
      rcases List.mem_append.mp hmem with hmem | hmem
      · exact hof hmem
      · simp at hmem
    · rw [hpt] at hmem
      simp only at hmem
      rcases List.mem_append.mp hmem with hmem | hmem
      · exact hof hmem
      · simp at hmem
    · rw [hpt] at hmem
      simp only at hmem
      rcases List.mem_append.mp hmem with hmem | hmem
      · exact hof hmem
      · simp at hmem

/-- Witness for C8: the level-1 tile at grid cell (1,1) of the demo run is
posted to pixel offsets (256, 256). -/
theorem claimC8_witness :
    ∃ tx ty, 256 = tx * demoCfg.tile_size ∧ 256 = ty * demoCfg.tile_size ∧
      tileUploadUrl demoCfg "p0" 1 256 256 =
        trimEndSlashes demoCfg.server_address ++ "/LayoutUtil/UploadTile/" ++
        demoCfg.layout_key ++ "/" ++ okEnv.layout_path ++ "/" ++ toString 1 ++ "/" ++
        toString 256 ++ "/" ++ toString 256 ++ "?__sc__=" ++ demoCfg.secret :=
  claimC8_upload_url_form demoCfg okEnv 512 512 1 256 256
    (tileUploadUrl demoCfg "p0" 1 256 256) true (by decide)

/-- Counterexample to C9 as stated: in a concrete cancelled run the trace
contains a snapshot (the zeroed "Cancelled" one) whose `total` field is 0,
not the previously computed `total_tiles = 5`, so it is not the case that
every snapshot written after `total_tiles` is computed carries that value. -/
theorem claimC9_counterexample :
    ¬ (∀ p : ProgressUpdate,
        Event.progressWrite p ∈ (process_tiles demoCfg cancelAt2Env 512 512).1 →
        p.total = totalTiles (get_max_zoom_levels demoCfg.tile_size 512 512)) := by
  intro hclaim
  have h1 : Event.progressWrite cancelledUpdate ∈
      (process_tiles demoCfg cancelAt2Env 512 512).1 := by decide
  have h2 := hclaim cancelledUpdate h1
  have h3 : totalTiles (get_max_zoom_levels demoCfg.tile_size 512 512) = 5 := by decide
  rw [h3] at h2
  simp [cancelledUpdate] at h2

/-- All progress snapshots that can reach the shared progress cell while one
run is in flight, after `total_tiles` has been computed: the writes
`process_tiles` itself performs (the per-tile snapshots and the zeroed
"Cancelled" snapshot of its cancellation exits), plus the zeroed
"Cancelling..." snapshot that a concurrent `cancel_processing` request
(main.rs lines 348-361) may write to the same cell at any moment.  The only
other writer, the "Starting..." snapshot of `start_processing` (lines
314-320), runs before `process_tiles` is entered and hence before
`total_tiles` exists, so it is outside this scope. -/
def midRunSnapshot (cfg : ProcessConfig) (env : Env) (width height : Nat)
    (p : ProgressUpdate) : Prop :=
  Event.progressWrite p ∈ (process_tiles cfg env width height).1 ∨ p = cancellingUpdate

/-- C9 (amended): within one run, once `total_tiles` is computed, every
snapshot subsequently written to the shared progress cell either carries
exactly that value in its `total` field (the per-tile progress writes never
revise it), or is one of the two cancellation snapshots - the run's terminal
`{0, 0, 0, 0, "Cancelled"}` write or the canceller's `{0, 0, 0, 0,
"Cancelling..."}` write - both of which deliberately reset every count,
`total` included, to zero. -/
theorem claimC9_total_fixed_amended (cfg : ProcessConfig) (env : Env) (width height : Nat)
    (p : ProgressUpdate) (hsnap : midRunSnapshot cfg env width height p) :
    p.total = totalTiles (get_max_zoom_levels cfg.tile_size width height) ∨
    p = cancelledUpdate ∨ p = cancellingUpdate := by
  rcases hsnap with hmem | rfl
  · rcases process_tiles_cases cfg env width height with
      ⟨evs, cE, e, hrl, hpt⟩ | ⟨evs, cE, hrl, hbranch⟩
    · obtain ⟨pre, hpre, hshape⟩ := runLevels_some cfg env width height _ _ _ _ _ _ hrl
      rw [hpt] at hmem
      simp only at hmem
      rcases hshape with ⟨-, hevs⟩ | ⟨k, zz0, x0, y0, url0, -, -, hevs⟩
      · rw [hevs] at hmem
        rcases List.mem_append.mp hmem with hmem | hmem
        · exact Or.inl (cleanEv_progress_total hpre hmem)
        · simp only [List.mem_cons, List.not_mem_nil, or_false] at hmem
          rcases hmem with hmem | hmem
          · cases hmem
          · obtain rfl : p = cancelledUpdate := by
              simpa using hmem
            exact Or.inr (Or.inl rfl)
      · rw [hevs] at hmem
        rcases List.mem_append.mp hmem with hmem | hmem
        · exact Or.inl (cleanEv_progress_total hpre hmem)
        · simp at hmem
    · obtain ⟨hclean, -, -, -, -, -⟩ := runLevels_none cfg env width height _ _ _ _ _ hrl
      rcases hbranch with ⟨-, hpt⟩ | ⟨-, -, hpt⟩ | ⟨-, -, hpt⟩
      · rw [hpt] at hmem
        simp only at hmem
        rcases List.mem_append.mp hmem with hmem | hmem
        · exact Or.inl (cleanEv_progress_total hclean hmem)
        · simp only [List.mem_cons, List.not_mem_nil, or_false] at hmem
          rcases hmem with hmem | hmem
          · cases hmem
          · obtain rfl : p = cancelledUpdate := by
              simpa using hmem
            exact Or.inr (Or.inl rfl)
      · rw [hpt] at hmem
        simp only at hmem
        rcases List.mem_append.mp hmem with hmem | hmem
        · exact Or.inl (cleanEv_progress_total hclean hmem)
        · simp at hmem
      · rw [hpt] at hmem
        simp only at hmem
        rcases List.mem_append.mp hmem with hmem | hmem
        · exact Or.inl (cleanEv_progress_total hclean hmem)
        · simp at hmem
  · exact Or.inr (Or.inr rfl)

/-- Witness for the amended C9 at a per-tile snapshot of the demo run. -/
theorem claimC9_witness :
    ProgressUpdate.total
      { current := 1, total := 5, zoom_level := 1, percentage := 20,
        status := statusMsg 1 1 5 } =
      totalTiles (get_max_zoom_levels demoCfg.tile_size 512 512) ∨
    ({ current := 1, total := 5, zoom_level := 1, percentage := 20,
        status := statusMsg 1 1 5 } : ProgressUpdate) = cancelledUpdate ∨
    ({ current := 1, total := 5, zoom_level := 1, percentage := 20,
        status := statusMsg 1 1 5 } : ProgressUpdate) = cancellingUpdate :=
  claimC9_total_fixed_amended demoCfg okEnv 512 512
    { current := 1, total := 5, zoom_level := 1, percentage := 20, status := statusMsg 1 1 5 }
    (Or.inl (by decide))

/-- C10: the cancel flag is read once more after the last tile upload and
before the finalize call; if every one of the `levelCount + total_tiles`
earlier reads saw `false` and every upload succeeded, but that final read
sees `true`, the run writes the zeroed "Cancelled" snapshot, returns the
cancellation error, and never calls finalize, even though all `total_tiles`
tiles uploaded successfully. -/
theorem claimC10_final_cancel_check (cfg : ProcessConfig) (env : Env) (width height : Nat)
    (hw : 1 ≤ width) (hh : 1 ≤ height) (ht : 1 ≤ cfg.tile_size)
    (hbefore : ∀ k, k < get_max_zoom_levels cfg.tile_size width height +
      totalTiles (get_max_zoom_levels cfg.tile_size width height) → env.cancel k = false)
    (hat : env.cancel (get_max_zoom_levels cfg.tile_size width height +
      totalTiles (get_max_zoom_levels cfg.tile_size width height)) = true)
    (hup : ∀ k, env.uploadOk k = true) :
    (process_tiles cfg env width height).2 = Except.error "Processing cancelled" ∧
    (∀ mz, Event.finalizeCall mz ∉ (process_tiles cfg env width height).1) ∧
    uploadCount (process_tiles cfg env width height).1 =
      totalTiles (get_max_zoom_levels cfg.tile_size width height) ∧
    (∀ zz x y url,
      Event.uploadTile zz x y url false ∉ (process_tiles cfg env width height).1) ∧
    ∃ pre, (process_tiles cfg env width height).1 =
      pre ++ [Event.cancelRead true, Event.progressWrite cancelledUpdate] := by
  have hsum := sum_ltc_range_reverse cfg.tile_size width height
    (get_max_zoom_levels cfg.tile_size width height) hw hh ht
  have hcomplete := runLevels_completes cfg env width height
    (totalTiles (get_max_zoom_levels cfg.tile_size width height))
    ((List.range (get_max_zoom_levels cfg.tile_size width height)).reverse)
    ⟨0, 0, 0, 0⟩
    (fun k hk => by
      refine hbefore k ?_
      simp only [List.length_reverse, List.length_range] at hk
      rw [hsum] at hk
      simpa using hk)
    hup
  rcases process_tiles_cases cfg env width height with
    ⟨evs, cE, e, hrl, hpt⟩ | ⟨evs, cE, hrl, hbranch⟩
  · rw [hrl] at hcomplete
    simp at hcomplete
  · obtain ⟨hclean, hzooms, hcr, -, -, -⟩ := runLevels_none cfg env width height _ _ _ _ _ hrl
    have hcrn : cE.cancelReads = get_max_zoom_levels cfg.tile_size width height +
        totalTiles (get_max_zoom_levels cfg.tile_size width height) := by
      rw [hcr]
      simp only [List.length_reverse, List.length_range]
      rw [hsum]
      simp
    have hcount : uploadCount evs =
        totalTiles (get_max_zoom_levels cfg.tile_size width height) := by
      rw [uploadCount, hzooms, length_flatMap_replicate, hsum]
    rcases hbranch with ⟨-, hpt⟩ | ⟨hcE, -, -⟩ | ⟨hcE, -, -⟩
    · refine ⟨by rw [hpt], ?_, ?_, ?_, evs, by rw [hpt]⟩
      · intro mz hmem
        rw [hpt] at hmem
        simp only at hmem
        rcases List.mem_append.mp hmem with hmem | hmem
        · exact cleanEv_no_finalize hclean hmem
        · simp at hmem
      · rw [hpt]
        simp only [uploadCount]
        rw [upZooms_append]
        have htail : upZooms [Event.cancelRead true,
            Event.progressWrite cancelledUpdate] = [] := by
          simp [upZooms]
        rw [htail, List.append_nil]
        exact hcount
      · intro zz x y url hmem
        rw [hpt] at hmem
        simp only at hmem
        rcases List.mem_append.mp hmem with hmem | hmem
        · exact cleanEv_no_failUpload hclean hmem
        · simp at hmem
    · rw [hcrn, hat] at hcE
      cases hcE
    · rw [hcrn, hat] at hcE
      cases hcE

/-- An environment that requests cancellation exactly from the eighth
cancel-flag read on (after the 2 level checks and 5 tile checks of a
512x512 / 256 run). -/
def lateCancelEnv : Env := { okEnv with cancel := fun k => decide (7 ≤ k) }

/-- Witness for C10: in the demo run all 5 uploads succeed, yet the final
check sees the flag and finalize is never called. -/
theorem claimC10_witness :
    (process_tiles demoCfg lateCancelEnv 512 512).2 = Except.error "Processing cancelled" ∧
    (∀ mz, Event.finalizeCall mz ∉ (process_tiles demoCfg lateCancelEnv 512 512).1) ∧
    uploadCount (process_tiles demoCfg lateCancelEnv 512 512).1 =
      totalTiles (get_max_zoom_levels demoCfg.tile_size 512 512) ∧
    (∀ zz x y url,
      Event.uploadTile zz x y url false ∉ (process_tiles demoCfg lateCancelEnv 512 512).1) ∧
    ∃ pre, (process_tiles demoCfg lateCancelEnv 512 512).1 =
      pre ++ [Event.cancelRead true, Event.progressWrite cancelledUpdate] :=
  claimC10_final_cancel_check demoCfg lateCancelEnv 512 512 (by decide) (by decide) (by decide)
    (fun k hk => by
      have h7 : get_max_zoom_levels demoCfg.tile_size 512 512 +
          totalTiles (get_max_zoom_levels demoCfg.tile_size 512 512) = 7 := by decide
      rw [h7] at hk
      exact decide_eq_false (by omega))
    (by decide) (fun _ => rfl)

/-- A configuration with the invalid tile size 0. -/
def zeroTileCfg : ProcessConfig := { demoCfg with tile_size := 0 }

/-- C5 (documenting the code's actual behavior, which contradicts the
claim): `start_processing` performs no `tile_size > 0` validation.  With
`tile_size = 0` the embedded run is not rejected as a configuration error:
it proceeds, performs no uploads (under the `Nat` convention `k / 0 = 0`
the level grid is empty), calls finalize with `maxZoom = 0` and reports
success.  In the Rust source the same input reaches `get_max_zoom_levels`,
where `max_dimension as f64 / 0.0` is infinity, the saturating `as u32`
cast yields `u32::MAX`, and the `+ 1` overflows: a panic in debug builds,
and in release builds a wrap to zero levels with finalize still called —
in no build is the configuration rejected before work begins. -/
theorem claimC5_no_validation_for_zero_tile_size :
    (start_processing zeroTileCfg okEnv 512 512).2 =
      Except.ok "Processing completed successfully! Max zoom level: 0" ∧
    Event.finalizeCall 0 ∈ (start_processing zeroTileCfg okEnv 512 512).1 ∧
    uploadCount (start_processing zeroTileCfg okEnv 512 512).1 = 0 :=
  ⟨rfl, by decide, by decide⟩
